import Mathlib

/-!
A shallow embedding of the analysis pipeline of `qinspect/middleware.py`
(django-queryinspect): query normalization, duplicate detection, the two
outlier detectors, traceback filtering and the stats reporter, together with
proofs of the specification claims about them.

Python floats are modelled as exact rationals (`ℚ`); the real-valued
square root in the statistical check is modelled over `ℝ` with `Real.sqrt`.
Python strings are modelled as Lean `String`s (sequences of characters).
-/

namespace QInspect

/-! ### Normalization: `sql_id_pattern = re.compile(r'=\s*\d+')`, `.sub('= ?', sql)`

The regex engine is modelled directly: scanning left to right, at each `'='`
the engine tries to match `\s*` (greedy, no backtracking is possible because
`\s` and `\d` are disjoint) followed by `\d+` (greedy); on a match the whole
matched span is replaced by `"= ?"` and scanning resumes after the match, on a
failure the character is copied and scanning moves one character ahead.
`\s` and `\d` are taken in their ASCII reading. -/

/-- The characters matched by the regex class `\s` (ASCII reading). -/
def isPySpace (c : Char) : Bool :=
  c = ' ' || c = '\t' || c = '\n' || c = '\r' || c = '\x0b' || c = '\x0c'

/-- Greedy `\d+` tail: drop the maximal run of leading digits. -/
def skipDigits : List Char → List Char
  | [] => []
  | c :: t => if c.isDigit then skipDigits t else c :: t

/-- Try to match `\s*\d+` at the head of `l`; on success return the rest of
the input after the matched span. -/
def matchIdTail : List Char → Option (List Char)
  | [] => none
  | c :: t =>
    if isPySpace c then matchIdTail t
    else if c.isDigit then some (skipDigits t)
    else none

theorem skipDigits_length_le : ∀ l : List Char, (skipDigits l).length ≤ l.length := by
  intro l
  induction l with
  | nil => simp [skipDigits]
  | cons c t ih =>
    simp only [skipDigits]
    split
    · exact Nat.le_succ_of_le ih
    · exact Nat.le_refl _

theorem matchIdTail_length_lt :
    ∀ l l' : List Char, matchIdTail l = some l' → l'.length < l.length := by
  intro l
  induction l with
  | nil => intro l' h; simp [matchIdTail] at h
  | cons c t ih =>
    intro l' h
    simp only [matchIdTail] at h
    split at h
    · exact Nat.lt_succ_of_lt (ih l' h)
    · split at h
      · cases h
        exact Nat.lt_succ_of_le (skipDigits_length_le t)
      · cases h

/-- Model of `re.sub` of `=\s*\d+` by `"= ?"` over a character list, with explicit
fuel so that the recursion is structural (the fuel never runs out when it
starts at the length of the input, since each step consumes at least one
character). -/
def subSqlIdAux : Nat → List Char → List Char
  | 0, l => l
  | _ + 1, [] => []
  | fuel + 1, c :: t =>
    if c = '=' then
      match matchIdTail t with
      | some t' => '=' :: ' ' :: '?' :: subSqlIdAux fuel t'
      | none => '=' :: subSqlIdAux fuel t
    else
      c :: subSqlIdAux fuel t

/-- Model of `re.sub` of `=\s*\d+` by `"= ?"` over a character list. -/
def subSqlId (l : List Char) : List Char := subSqlIdAux l.length l

theorem subSqlIdAux_fuel :
    ∀ (f g : Nat) (l : List Char), l.length ≤ f → l.length ≤ g →
      subSqlIdAux f l = subSqlIdAux g l := by
  intro f
  induction f with
  | zero =>
    intro g l hf _
    have : l = [] := List.eq_nil_of_length_eq_zero (Nat.le_zero.mp hf)
    subst this
    cases g <;> rfl
  | succ f ih =>
    intro g l hf hg
    cases l with
    | nil => cases g <;> rfl
    | cons c t =>
      cases g with
      | zero => exact absurd hg (by simp)
      | succ g =>
        have ht : t.length ≤ f := by simp only [List.length_cons] at hf; omega
        have ht' : t.length ≤ g := by simp only [List.length_cons] at hg; omega
        by_cases hc : c = '='
        · subst hc
          cases hm : matchIdTail t with
          | some t' =>
            have hlt := matchIdTail_length_lt t t' hm
            simp only [subSqlIdAux, eq_self_iff_true, if_true, hm]
            rw [ih g t' (by omega) (by omega)]
          | none =>
            simp only [subSqlIdAux, eq_self_iff_true, if_true, hm]
            rw [ih g t ht ht']
        · simp only [subSqlIdAux, if_neg hc]
          rw [ih g t ht ht']

theorem subSqlId_nil : subSqlId [] = [] := rfl

theorem subSqlId_cons_ne {c : Char} (t : List Char) (h : ¬ c = '=') :
    subSqlId (c :: t) = c :: subSqlId t := by
  simp only [subSqlId, List.length_cons, subSqlIdAux, h, ite_false]

theorem subSqlId_eq_some {t t' : List Char} (h : matchIdTail t = some t') :
    subSqlId ('=' :: t) = '=' :: ' ' :: '?' :: subSqlId t' := by
  simp only [subSqlId, List.length_cons, subSqlIdAux, eq_self_iff_true, if_true, h]
  rw [subSqlIdAux_fuel t.length t'.length t'
    (Nat.le_of_lt (matchIdTail_length_lt t t' h)) (Nat.le_refl _)]

theorem subSqlId_eq_none {t : List Char} (h : matchIdTail t = none) :
    subSqlId ('=' :: t) = '=' :: subSqlId t := by
  simp only [subSqlId, List.length_cons, subSqlIdAux, eq_self_iff_true, if_true, h]

/-- After a `'='`, the substituted text `' ' :: '?' :: rest` can never match
`\s*\d+`: the `'?'` is neither whitespace nor a digit. -/
theorem matchIdTail_repl (rest : List Char) :
    matchIdTail (' ' :: '?' :: rest) = none := by
  have h1 : isPySpace ' ' = true := by decide
  have h2 : isPySpace '?' = false := by decide
  have h3 : ('?').isDigit = false := by decide
  simp [matchIdTail, h1, h2, h3]

/-- A failed `\s*\d+` match survives substitution of the tail: substitution
preserves the leading whitespace run and the first non-space character, and
never makes that character a digit. -/
theorem matchIdTail_subSqlId_none :
    ∀ l : List Char, matchIdTail l = none → matchIdTail (subSqlId l) = none := by
  intro l
  induction l with
  | nil => intro _; simp [subSqlId_nil, matchIdTail]
  | cons c t ih =>
    intro h
    simp only [matchIdTail] at h
    by_cases hsp : isPySpace c = true
    · -- a space is copied; the match keeps skipping it
      have hc : ¬ c = '=' := by
        intro he; subst he; exact absurd hsp (by decide)
      rw [subSqlId_cons_ne t hc]
      simp only [matchIdTail, hsp, if_true, if_pos]
      simp only [hsp, if_true, if_pos] at h
      exact ih h
    · by_cases hdig : c.isDigit = true
      · simp [hsp, hdig] at h
      · by_cases hc : c = '='
        · subst hc
          cases hm : matchIdTail t with
          | some t' =>
            rw [subSqlId_eq_some hm]
            have h2 : isPySpace '=' = false := by decide
            have h3 : ('=').isDigit = false := by decide
            simp [matchIdTail, h2, h3]
          | none =>
            rw [subSqlId_eq_none hm]
            have h2 : isPySpace '=' = false := by decide
            have h3 : ('=').isDigit = false := by decide
            simp [matchIdTail, h2, h3]
        · rw [subSqlId_cons_ne t hc]
          simp [matchIdTail, hsp, hdig]

/-- The substitution is idempotent on character lists: the replacement text
`"= ?"` contains no digit after its `'='`, so a second scan finds no match. -/
theorem subSqlId_idem : ∀ l : List Char, subSqlId (subSqlId l) = subSqlId l
  | [] => by simp [subSqlId_nil]
  | c :: t => by
    by_cases hc : c = '='
    · subst hc
      cases hm : matchIdTail t with
      | some t' =>
        rw [subSqlId_eq_some hm]
        rw [subSqlId_eq_none (matchIdTail_repl (subSqlId t'))]
        rw [subSqlId_cons_ne _ (by decide : ¬ (' ' = '='))]
        rw [subSqlId_cons_ne _ (by decide : ¬ ('?' = '='))]
        rw [subSqlId_idem t']
      | none =>
        rw [subSqlId_eq_none hm]
        rw [subSqlId_eq_none (matchIdTail_subSqlId_none t hm)]
        rw [subSqlId_idem t]
    · rw [subSqlId_cons_ne t hc, subSqlId_cons_ne _ hc, subSqlId_idem t]
termination_by l => l.length
decreasing_by
  all_goals first
    | exact Nat.lt_succ_self _
    | exact Nat.lt_succ_of_lt (matchIdTail_length_lt t t' hm)

/-- Model of `cls.sql_id_pattern.sub('= ?', sql)` on a Lean `String`. -/
def sql_id_sub (s : String) : String := ⟨subSqlId s.data⟩

/-! ### Data model -/

/-- Source `QueryInspectMiddleware.QueryInfo` (slots `sql`, `time`, `tb`): a
normalized query. `time` is the elapsed seconds, `tb` the optional captured
call stack (one source-file path per frame). -/
structure QueryInfo where
  sql : String
  time : ℚ
  tb : Option (List String)
deriving DecidableEq

/-- One record of the ORM's debug query log: `{'sql': ..., 'time': ...}`,
plus the `'tb'` key set by the patched cursor when tracebacks are captured.
`float(q['time'])` of a well-formed entry is modelled by an exact rational. -/
structure RawQuery where
  sql : Option String
  time : ℚ
  tb : Option (List String)
deriving DecidableEq

/-- The module's configuration dictionary `cfg`, with the documented default
for every key. -/
structure Config where
  enabled : Bool := false
  absolute_limit : Option ℚ := none
  header_stats : Bool := true
  log_all_queries : Bool := false
  log_duplicates : Bool := false
  log_stats : Bool := true
  log_tracebacks : Bool := false
  log_tracebacks_duplicate_limit : Nat := 1
  standard_deviation_limit : Option ℝ := none
  traceback_roots : List String := []
  traceback_roots_exclude : List String := []

/-- The default configuration (no user overrides). -/
def defaultCfg : Config := {}

/-! ### Normalizer: `get_query_details` -/

/-- Source `get_query_details`: drop the records whose SQL text is `None`, map every
other record 1:1 in order to a `QueryInfo` with the canonicalized SQL. -/
def get_query_details (queries : List RawQuery) : List QueryInfo :=
  queries.filterMap fun q =>
    match q.sql with
    | none => none
    | some s => some ⟨sql_id_sub s, q.time, q.tb⟩

/-! ### Duplicate detector: `count_duplicates`, `group_queries`,
`check_duplicates`, `log_duplicates` -/

/-- One step of `buf[qi.sql] = buf[qi.sql] + 1` on the association list that
models the `defaultdict` (Python dicts keep keys in insertion order). -/
def bump : List (String × Nat) → String → List (String × Nat)
  | [], s => [(s, 1)]
  | (k, n) :: rest, s =>
    if k = s then (k, n + 1) :: rest else (k, n) :: bump rest s

/-- The occurrence count per canonical SQL, items in first-encounter key
order. -/
def countOcc (details : List QueryInfo) : List (String × Nat) :=
  details.foldl (fun buf qi => bump buf qi.sql) []

/-- Source `count_duplicates`: the `(sql, count)` items sorted by count, descending;
Python's `sorted(..., reverse=True)` is a stable sort. -/
def count_duplicates (details : List QueryInfo) : List (String × Nat) :=
  (countOcc details).mergeSort (fun a b => decide (b.2 ≤ a.2))

/-- Source `group_queries`: the queries grouped by canonical SQL, members of each
group in original order; read off as a total function (a `defaultdict` is
empty at an unseen key). -/
def group_queries (details : List QueryInfo) : String → List QueryInfo :=
  fun s => details.filter (fun qi => decide (qi.sql = s))

/-- Source `check_duplicates`: the excess-duplicate count
`sum(num for groups with num > 1) - len(those groups)` (0 when there is no
such group). -/
def check_duplicates (details : List QueryInfo) : Nat :=
  let duplicates := (count_duplicates details).filter (fun p => decide (1 < p.2))
  if 0 < duplicates.length then (duplicates.map Prod.snd).sum - duplicates.length
  else 0

/-- Python truthiness of `x.tb` in `if(x.tb)`: `None` and the empty list are
falsy. -/
def tbTruthy : Option (List String) → Bool
  | none => false
  | some l => !l.isEmpty

/-- One duplicate group's log output: the repeated-query warning and the
members whose call stacks get printed. -/
structure DupLogEntry where
  sql : String
  num : Nat
  tbs : List QueryInfo
deriving DecidableEq

/-- Source `log_duplicates`: nothing unless `log_duplicates` is configured; then one
warning per duplicate group and, when `log_tracebacks` is set and the group is
non-empty, the call stacks of the members among the first
`log_tracebacks_duplicate_limit` of the group that have a truthy stack. -/
def log_duplicates (cfg : Config) (details : List QueryInfo)
    (duplicates : List (String × Nat)) : List DupLogEntry :=
  if !cfg.log_duplicates then []
  else
    duplicates.map fun p =>
      { sql := p.1, num := p.2,
        tbs :=
          if cfg.log_tracebacks && !(group_queries details p.1).isEmpty then
            ((group_queries details p.1).take cfg.log_tracebacks_duplicate_limit).filter
              (fun x => tbTruthy x.tb)
          else [] }

/-! ### Outlier detectors: `check_stddev_limit`, `check_absolute_limit` -/

/-- Source `check_stddev_limit`: the queries flagged (one warning each) by the
statistical pass. Skipped when no limit is configured or there are no
queries; `stddev` is `0` for fewer than two queries, else
`sqrt((1.0 / (n - 1)) * (stddev_sum / n))` with
`stddev_sum = sum(sqrt((qi.time - mean) ** 2))`, and the flagging threshold is
`mean + (stddev * the_limit)`. -/
noncomputable def check_stddev_limit (cfg : Config) (details : List QueryInfo) :
    List QueryInfo :=
  let total : ℝ := (details.map (fun qi => (qi.time : ℝ))).sum
  let n := details.length
  match cfg.standard_deviation_limit with
  | none => []
  | some the_limit =>
    if n = 0 then []
    else
      let mean := total / n
      let stddev_sum := (details.map (fun qi => Real.sqrt (((qi.time : ℝ) - mean) ^ 2))).sum
      let stddev : ℝ :=
        if n < 2 then 0 else Real.sqrt ((1 / ((n : ℝ) - 1)) * (stddev_sum / n))
      let query_limit := mean + stddev * the_limit
      details.filter (fun qi => decide (query_limit < (qi.time : ℝ)))

/-- Source `check_absolute_limit`: the queries flagged (one warning each) by the
absolute-limit pass. Skipped only when no limit is configured or there are no
queries; the threshold is the configured milliseconds divided by 1000. -/
def check_absolute_limit (cfg : Config) (details : List QueryInfo) :
    List QueryInfo :=
  match cfg.absolute_limit with
  | none => []
  | some limit =>
    if details.length = 0 then []
    else
      let query_limit := limit / 1000
      details.filter (fun qi => decide (query_limit < qi.time))

/-! ### Traceback filtering: `should_include` -/

/-- Python `str.startswith`: prefix test on the character sequence. -/
def startswith (path pre : String) : Bool := pre.data.isPrefixOf path.data

/-- The `for root in roots` loop of `should_include`: at the first root that
is a prefix of the path, exclude the path if some exclusion entry is a prefix,
else include it; if no root matches, exclude. -/
def rootsLoop (path : String) (excludes : List String) : List String → Bool
  | [] => false
  | root :: rest =>
    if startswith path root then
      !excludes.any (fun x => startswith path x)
    else rootsLoop path excludes rest

/-- Source `should_include(path)` from `patch_cursor`, with the module's own file
(the Python `__file__`, always excluded, also as the `.py` of a `.pyc`)
passed explicitly. -/
def should_include (selfFile : String) (cfg : Config) (path : String) : Bool :=
  if path = selfFile || path ++ "c" = selfFile then false
  else
    match cfg.traceback_roots with
    | [] => true
    | _ => rootsLoop path cfg.traceback_roots_exclude cfg.traceback_roots

/-! ### Reporter: `output_stats`, `output_sql` -/

/-- Python `'%d' % x` on a float: truncation towards zero. -/
def pyInt (q : ℚ) : Int := q.num.tdiv q.den

/-- The aggregate stats line `'[SQL] %d queries (%d duplicates), %d ms SQL
time, %d ms total request time'`. -/
def statsLine (n num_duplicates : Nat) (sqlMs reqMs : Int) : String :=
  "[SQL] " ++ toString n ++ " queries (" ++ toString num_duplicates ++
    " duplicates), " ++ toString sqlMs ++ " ms SQL time, " ++
    toString reqMs ++ " ms total request time"

/-- Source `output_stats`: the optional stats log line (gated by `log_stats`) and the
optional four response headers (attached only when `header_stats` is set and a
response object is available). -/
def output_stats (cfg : Config) (details : List QueryInfo) (num_duplicates : Nat)
    (request_time : ℚ) (response : Bool) :
    Option String × Option (List (String × String)) :=
  let sql_time := (details.map (fun qi => qi.time)).sum
  let n := details.length
  let line :=
    if cfg.log_stats then
      some (statsLine n num_duplicates (pyInt (sql_time * 1000))
        (pyInt (request_time * 1000)))
    else none
  let headers :=
    if cfg.header_stats && response then
      some [
        ("X-QueryInspect-Num-SQL-Queries", toString n),
        ("X-QueryInspect-Total-SQL-Time", toString (pyInt (sql_time * 1000)) ++ " ms"),
        ("X-QueryInspect-Total-Request-Time", toString (pyInt (request_time * 1000)) ++ " ms"),
        ("X-QueryInspect-Duplicate-SQL-Queries", toString num_duplicates)]
    else none
  (line, headers)

/-- Model of `traceback.format_list` over a captured stack: one formatted line per
frame. Applied to `None` the real function raises a `TypeError`; `output_sql`
models that with `Option`. -/
def format_list (tb : List String) : List String :=
  tb.map (fun f => "  File " ++ f)

/-- Source `output_sql`: the all-queries dump (gated by `log_all_queries`): per
record the query line and the last formatted frame of its captured stack
(`tb_list[-1] if tb_list else ""`). A record whose `tb` was never set makes
`traceback.format_list(entry.tb)` raise, so the dump fails: `none`. -/
def output_sql (cfg : Config) (details : List QueryInfo) :
    Option (List (String × String)) :=
  if !cfg.log_all_queries then some []
  else
    details.mapM fun entry =>
      match entry.tb with
      | none => none
      | some tb =>
        let tb_list := format_list tb
        let latest := tb_list.getLastD ""
        some ("[SQL] [" ++ toString (pyInt (entry.time * 1000)) ++ " ms] " ++ entry.sql,
          latest)

/-! ### Claim C6 -/

/-- C6: Normalization is idempotent: applying the canonicalization
substitution (replace every occurrence of `= <integer>` with `= ?`) to an
already-canonical text yields it unchanged, i.e.
`normalize (normalize s) = normalize s` for every input string `s`. -/
theorem claim_C6_normalization_idempotent (s : String) :
    sql_id_sub (sql_id_sub s) = sql_id_sub s :=
  congrArg String.mk (subSqlId_idem s.data)

/-! ### Claim C3 -/

/-- C3: the absolute-limit check uses threshold = configured milliseconds /
1000 (seconds) and flags exactly the queries whose elapsed seconds are
strictly greater than that threshold; a configured value of zero is enabled
and flags exactly the queries with positive elapsed time; only an absent
configured value disables the check. -/
theorem claim_C3_absolute_limit (cfg : Config) (l : ℚ) (details : List QueryInfo) :
    check_absolute_limit { cfg with absolute_limit := none } details = []
    ∧ check_absolute_limit { cfg with absolute_limit := some l } details =
        details.filter (fun qi => decide (l / 1000 < qi.time))
    ∧ check_absolute_limit { cfg with absolute_limit := some 0 } details =
        details.filter (fun qi => decide (0 < qi.time)) := by
  refine ⟨rfl, ?_, ?_⟩
  · simp only [check_absolute_limit]
    by_cases h : details.length = 0
    · rw [if_pos h, List.eq_nil_of_length_eq_zero h]
      rfl
    · rw [if_neg h]
  · simp only [check_absolute_limit]
    by_cases h : details.length = 0
    · rw [if_pos h, List.eq_nil_of_length_eq_zero h]
      rfl
    · rw [if_neg h]
      simp only [zero_div]

/-! ### Claim C8 -/

/-- C8: each outlier detector is skipped entirely (emits no warnings)
whenever its configuration value is absent or the normalized-query sequence
is empty; in particular with both limits absent no outlier warning is ever
emitted. -/
theorem claim_C8_detectors_skipped (cfg : Config) (details : List QueryInfo) :
    check_stddev_limit { cfg with standard_deviation_limit := none } details = []
    ∧ check_stddev_limit cfg [] = []
    ∧ check_absolute_limit { cfg with absolute_limit := none } details = []
    ∧ check_absolute_limit cfg [] = [] := by
  refine ⟨rfl, ?_, rfl, ?_⟩
  · simp only [check_stddev_limit]
    cases cfg.standard_deviation_limit <;> simp
  · simp only [check_absolute_limit]
    cases cfg.absolute_limit <;> simp

/-! ### Claim C9 -/

/-- C9: the normalizer drops exactly the records with null SQL text and maps
every other record 1:1 in original order to a normalized record (so its
output is never longer than its input), and canonicalization depends only on
the SQL text (same text, same canonical text, whatever the rest of the
record). -/
theorem claim_C9_normalizer_shape (queries : List RawQuery) (s : String)
    (t₁ t₂ : ℚ) (tb₁ tb₂ : Option (List String)) :
    get_query_details queries =
      (queries.filter (fun q => q.sql.isSome)).map
        (fun q => ⟨sql_id_sub (q.sql.getD ""), q.time, q.tb⟩)
    ∧ (get_query_details queries).length =
        (queries.filter (fun q => q.sql.isSome)).length
    ∧ (get_query_details queries).length ≤ queries.length
    ∧ (get_query_details [⟨some s, t₁, tb₁⟩]).map (fun qi => qi.sql) =
        (get_query_details [⟨some s, t₂, tb₂⟩]).map (fun qi => qi.sql) := by
  have hmain : get_query_details queries =
      (queries.filter (fun q => q.sql.isSome)).map
        (fun q => ⟨sql_id_sub (q.sql.getD ""), q.time, q.tb⟩) := by
    induction queries with
    | nil => rfl
    | cons q qs ih =>
      cases hs : q.sql with
      | none =>
        simp only [get_query_details, List.filterMap_cons, hs] at ih ⊢
        rw [List.filter_cons]
        simp only [hs, Option.isSome_none, Bool.false_eq_true, if_false, ite_false]
        exact ih
      | some str =>
        simp only [get_query_details, List.filterMap_cons, hs] at ih ⊢
        rw [List.filter_cons]
        simp only [hs, Option.isSome_some, if_true, List.map_cons, Option.getD_some]
        exact congrArg _ ih
  refine ⟨hmain, ?_, ?_, rfl⟩
  · rw [hmain, List.length_map]
  · rw [hmain, List.length_map]
    exact List.length_filter_le _ _

/-! ### Claim C10 -/

theorem mapM_option_isSome {α β : Type} (f : α → Option β) :
    ∀ l : List α, (l.mapM f).isSome = true ↔ ∀ a ∈ l, (f a).isSome = true := by
  intro l
  rw [← List.mapM'_eq_mapM]
  induction l with
  | nil => simp [List.mapM']
  | cons a as ih =>
    simp only [List.mapM', List.mem_cons]
    cases hf : f a with
    | none =>
      simp [hf]
    | some b =>
      cases hm : as.mapM' f with
      | none =>
        rw [hm] at ih
        simp only [Option.isSome_none, Bool.false_eq_true, false_iff] at ih
        push_neg at ih
        obtain ⟨x, hx, hfx⟩ := ih
        simp only [hf, hm, Option.bind_eq_bind, Option.some_bind, Option.none_bind,
          Option.isSome_none, Bool.false_eq_true, false_iff]
        push_neg
        refine ⟨x, Or.inr hx, ?_⟩
        simp [hfx]
      | some bs =>
        rw [hm] at ih
        simp only [Option.isSome_some, true_iff] at ih
        simp only [hf, hm, Option.bind_eq_bind, Option.some_bind, Option.pure_def,
          Option.isSome_some, true_iff]
        intro x hx
        rcases hx with h1 | h2
        · subst h1; simp [hf]
        · exact ih x h2

/-- C10: the all-queries dump formats each record's captured call stack
unconditionally, so it succeeds exactly when every record carries a
(possibly empty) captured stack; on a record whose stack was never captured
(`tb` null, as when cursor patching was off) the formatting step's error
branch is reached and the dump fails. -/
theorem claim_C10_output_sql_totality (cfg : Config) (details : List QueryInfo) :
    ((output_sql { cfg with log_all_queries := true } details).isSome ↔
      ∀ qi ∈ details, qi.tb.isSome = true)
    ∧ output_sql { cfg with log_all_queries := true }
        [⟨"SELECT 1", 1, none⟩] = none := by
  constructor
  · simp only [output_sql, Bool.not_true, Bool.false_eq_true, if_false, ite_false]
    rw [mapM_option_isSome]
    constructor
    · intro h qi hqi
      have := h qi hqi
      cases hq : qi.tb with
      | none => rw [hq] at this; exact absurd this (by simp)
      | some tb => simp
    · intro h qi hqi
      have := h qi hqi
      cases hq : qi.tb with
      | none => rw [hq] at this; exact absurd this (by simp)
      | some tb => simp [hq]
  · rfl

/-! ### Claim C4 -/

theorem rootsLoop_eq_true (path : String) (excludes : List String) :
    ∀ roots : List String,
      (rootsLoop path excludes roots = true ↔
        ((∃ r ∈ roots, startswith path r = true) ∧
          ∀ x ∈ excludes, startswith path x = false)) := by
  intro roots
  induction roots with
  | nil => simp [rootsLoop]
  | cons root rest ih =>
    simp only [rootsLoop]
    by_cases h : startswith path root = true
    · rw [if_pos h]
      simp only [Bool.not_eq_true', List.any_eq_false, Bool.not_eq_true]
      constructor
      · intro hex
        exact ⟨⟨root, List.mem_cons_self _ _, h⟩, hex⟩
      · intro hx
        exact hx.2
    · rw [if_neg h]
      rw [ih]
      constructor
      · intro ⟨⟨r, hr, hsr⟩, hex⟩
        exact ⟨⟨r, List.mem_cons_of_mem _ hr, hsr⟩, hex⟩
      · intro ⟨⟨r, hr, hsr⟩, hex⟩
        rcases List.mem_cons.mp hr with h1 | h2
        · subst h1; exact absurd hsr h
        · exact ⟨⟨r, h2, hsr⟩, hex⟩

/-- A concrete stand-in for the module's own source file (`__file__`) in the
spec's scenario. -/
def middlewareFile : String := "/app/qinspect/middleware.py"

/-- The spec's scenario configuration: roots `["/app/src"]`, excludes
`["/app/src/vendor"]`. -/
def scenarioCfg : Config :=
  { defaultCfg with
    traceback_roots := ["/app/src"],
    traceback_roots_exclude := ["/app/src/vendor"] }

/-- C4: a stack-frame path is included iff it is not the instrumentation
module's own file and either the inclusion-root list is empty, or some root
is a prefix of the path and no exclusion entry is; in the spec's scenario
(roots `["/app/src"]`, excludes `["/app/src/vendor"]`),
`/app/src/vendor/lib.py` is excluded, `/app/src/views.py` is included and
`/usr/lib/python/x.py` is excluded. -/
theorem claim_C4_traceback_filter (selfFile path : String) (cfg : Config) :
    (should_include selfFile cfg path = true ↔
      (path ≠ selfFile ∧ path ++ "c" ≠ selfFile ∧
        (cfg.traceback_roots = [] ∨
          ((∃ r ∈ cfg.traceback_roots, startswith path r = true) ∧
            ∀ x ∈ cfg.traceback_roots_exclude, startswith path x = false))))
    ∧ should_include middlewareFile scenarioCfg "/app/src/vendor/lib.py" = false
    ∧ should_include middlewareFile scenarioCfg "/app/src/views.py" = true
    ∧ should_include middlewareFile scenarioCfg "/usr/lib/python/x.py" = false := by
  refine ⟨?_, by decide, by decide, by decide⟩
  simp only [should_include]
  by_cases h1 : path = selfFile
  · rw [if_pos (by simp [h1])]
    simp [h1]
  · by_cases h2 : path ++ "c" = selfFile
    · rw [if_pos (by simp [h2])]
      simp [h1, h2]
    · rw [if_neg (by simp [h1, h2])]
      cases hr : cfg.traceback_roots with
      | nil => simp [hr, h1, h2]
      | cons a as =>
        simp only [hr]
        rw [rootsLoop_eq_true]
        simp [h1, h2]

/-! ### Claim C5 -/

/-- C5: reported time values are seconds multiplied by 1000 and formatted as
a truncated integer; the response metadata, present exactly when the header
flag is on and a response object exists, consists of the four named entries,
the time-valued ones being an integer string suffixed with `" ms"`; `pyInt`
truncates (never rounds): for nonnegative `q` it is the floor, and
`12.7 → 12`. -/
theorem claim_C5_reported_times (cfg : Config) (details : List QueryInfo)
    (num_duplicates : Nat) (request_time : ℚ) (response : Bool) :
    (output_stats { cfg with header_stats := true } details num_duplicates
        request_time true).2 =
      some [
        ("X-QueryInspect-Num-SQL-Queries", toString details.length),
        ("X-QueryInspect-Total-SQL-Time",
          toString (pyInt ((details.map (fun qi => qi.time)).sum * 1000)) ++ " ms"),
        ("X-QueryInspect-Total-Request-Time",
          toString (pyInt (request_time * 1000)) ++ " ms"),
        ("X-QueryInspect-Duplicate-SQL-Queries", toString num_duplicates)]
    ∧ (output_stats { cfg with header_stats := false } details num_duplicates
        request_time response).2 = none
    ∧ (output_stats cfg details num_duplicates request_time false).2 = none
    ∧ (output_stats { cfg with log_stats := true } details num_duplicates
        request_time response).1 =
      some (statsLine details.length num_duplicates
        (pyInt ((details.map (fun qi => qi.time)).sum * 1000))
        (pyInt (request_time * 1000)))
    ∧ (∀ q : ℚ, 0 ≤ q → ((pyInt q : ℚ) ≤ q ∧ q < pyInt q + 1))
    ∧ pyInt (127 / 10) = 12 := by
  have hpy : ∀ q : ℚ, 0 ≤ q → pyInt q = ⌊q⌋ := by
    intro q hq
    have hnum : 0 ≤ q.num := Rat.num_nonneg.mpr hq
    rw [pyInt, Int.tdiv_eq_ediv hnum (by exact_mod_cast Nat.zero_le q.den),
      ← Rat.floor_def]
  refine ⟨rfl, ?_, ?_, rfl, ?_, ?_⟩
  · simp [output_stats]
  · simp [output_stats]
  · intro q hq
    rw [hpy q hq]
    exact ⟨Int.floor_le q, Int.lt_floor_add_one q⟩
  · rw [hpy (127 / 10) (by norm_num)]
    rw [Int.floor_eq_iff]
    norm_num

/-! ### Claim C1 -/

/-- The mean elapsed time over the normalized queries (spec side). -/
noncomputable def specMean (details : List QueryInfo) : ℝ :=
  ((details.map (fun qi => (qi.time : ℝ))).sum) / details.length

/-- The spec's standard-deviation formula for `n ≥ 2`:
`sqrt((1/(n-1)) * (sum(sqrt((x-mean)^2))) / n)`. -/
noncomputable def specStddev (details : List QueryInfo) : ℝ :=
  Real.sqrt ((1 / ((details.length : ℝ) - 1)) *
    ((details.map (fun qi =>
      Real.sqrt (((qi.time : ℝ) - specMean details) ^ 2))).sum) /
    details.length)

/-- C1: for a sequence of at least two normalized queries the statistical
check computes the mean, computes stddev exactly by the spec's formula
`sqrt((1/(n-1)) * (sum(sqrt((x-mean)^2))) / n)`, sets the threshold to
`mean + stddevLimit * stddev` and flags exactly the queries strictly above
it; a single-query sequence is never flagged (stddev is 0 for `n < 2` and the
comparison is strict). -/
theorem claim_C1_stddev_outliers (cfg : Config) (l : ℝ) (a b q : QueryInfo)
    (rest : List QueryInfo) :
    check_stddev_limit { cfg with standard_deviation_limit := some l }
        (a :: b :: rest) =
      (a :: b :: rest).filter (fun qi =>
        decide (specMean (a :: b :: rest) + l * specStddev (a :: b :: rest) <
          (qi.time : ℝ)))
    ∧ check_stddev_limit { cfg with standard_deviation_limit := some l } [q] = [] := by
  constructor
  · simp only [check_stddev_limit]
    simp only [if_neg (show ¬((a :: b :: rest).length = 0) by simp),
      if_neg (show ¬((a :: b :: rest).length < 2) by
        simp only [List.length_cons]; omega)]
    simp only [specStddev, specMean]
    apply List.filter_congr
    intro qi _
    rw [decide_eq_decide]
    rw [mul_comm (Real.sqrt _) l, mul_div_assoc]
  · simp only [check_stddev_limit]
    simp only [if_neg (show ¬(([q] : List QueryInfo).length = 0) by simp),
      if_pos (show ([q] : List QueryInfo).length < 2 by simp)]
    simp only [List.map_cons, List.map_nil, List.sum_cons, List.sum_nil,
      List.length_cons, List.length_nil, Nat.cast_one, Nat.cast_zero,
      add_zero, zero_mul, div_one, zero_add]
    simp [List.filter_cons, lt_self_iff_false]

/-! ### Counting lemmas for the duplicate detector -/

/-- The total count an association buffer assigns to a key. -/
def bufCount : List (String × Nat) → String → Nat
  | [], _ => 0
  | p :: rest, s => (if p.1 = s then p.2 else 0) + bufCount rest s

theorem bufCount_bump (buf : List (String × Nat)) (s t : String) :
    bufCount (bump buf s) t = bufCount buf t + (if t = s then 1 else 0) := by
  induction buf with
  | nil =>
    simp only [bump, bufCount]
    by_cases h : s = t
    · subst h; simp
    · have h' : ¬ t = s := fun ht => h ht.symm
      simp [h, h']
  | cons p rest ih =>
    obtain ⟨k, n⟩ := p
    simp only [bump]
    by_cases hks : k = s
    · rw [if_pos hks]
      simp only [bufCount]
      by_cases hkt : k = t
      · have hts : t = s := by rw [← hkt, hks]
        simp [hkt, hts] <;> omega
      · have hts : ¬ t = s := by
          intro h
          exact hkt (by rw [hks, ← h])
        simp [hkt, hts]
    · rw [if_neg hks]
      simp only [bufCount]
      rw [ih, Nat.add_assoc]

theorem bump_keys (buf : List (String × Nat)) (s : String) :
    (bump buf s).map Prod.fst =
      if s ∈ buf.map Prod.fst then buf.map Prod.fst
      else buf.map Prod.fst ++ [s] := by
  induction buf with
  | nil => simp [bump]
  | cons p rest ih =>
    obtain ⟨k, n⟩ := p
    simp only [bump]
    by_cases hks : k = s
    · rw [if_pos hks]
      simp [hks]
    · rw [if_neg hks]
      simp only [List.map_cons, List.mem_cons]
      by_cases hmem : s ∈ rest.map Prod.fst
      · simp [hmem, ih]
      · have hsk : ¬ s = k := fun h => hks h.symm
        simp [hmem, ih, hsk]

theorem mem_bump_keys (buf : List (String × Nat)) (s t : String) :
    t ∈ (bump buf s).map Prod.fst ↔ t ∈ buf.map Prod.fst ∨ t = s := by
  rw [bump_keys]
  by_cases hmem : s ∈ buf.map Prod.fst
  · rw [if_pos hmem]
    constructor
    · exact Or.inl
    · rintro (h | h)
      · exact h
      · exact h ▸ hmem
  · rw [if_neg hmem]
    simp [List.mem_append]

theorem bump_keys_nodup (buf : List (String × Nat)) (s : String)
    (h : (buf.map Prod.fst).Nodup) : ((bump buf s).map Prod.fst).Nodup := by
  rw [bump_keys]
  by_cases hmem : s ∈ buf.map Prod.fst
  · rw [if_pos hmem]; exact h
  · rw [if_neg hmem]
    rw [List.nodup_append]
    refine ⟨h, List.nodup_singleton s, ?_⟩
    intro x hx hx'
    rw [List.mem_singleton] at hx'
    exact hmem (hx' ▸ hx)

theorem foldl_bump_count (details : List QueryInfo) :
    ∀ (buf : List (String × Nat)) (t : String),
      bufCount (details.foldl (fun b qi => bump b qi.sql) buf) t =
        bufCount buf t + (details.map (fun qi => qi.sql)).count t := by
  induction details with
  | nil => intro buf t; simp
  | cons a as ih =>
    intro buf t
    simp only [List.foldl_cons, List.map_cons]
    rw [ih, bufCount_bump]
    by_cases h : t = a.sql
    · simp only [List.count_cons, h, if_pos rfl]
      simp
      omega
    · have h' : ¬ a.sql = t := fun hh => h hh.symm
      simp only [List.count_cons]
      simp [h, h']

theorem foldl_bump_keys_nodup (details : List QueryInfo) :
    ∀ buf : List (String × Nat), (buf.map Prod.fst).Nodup →
      ((details.foldl (fun b qi => bump b qi.sql) buf).map Prod.fst).Nodup := by
  induction details with
  | nil => intro buf h; exact h
  | cons a as ih =>
    intro buf h
    exact ih _ (bump_keys_nodup _ _ h)

theorem foldl_bump_keys_mem (details : List QueryInfo) :
    ∀ (buf : List (String × Nat)) (t : String),
      (t ∈ (details.foldl (fun b qi => bump b qi.sql) buf).map Prod.fst ↔
        t ∈ buf.map Prod.fst ∨ t ∈ details.map (fun qi => qi.sql)) := by
  induction details with
  | nil => intro buf t; simp
  | cons a as ih =>
    intro buf t
    simp only [List.foldl_cons, List.map_cons, List.mem_cons]
    rw [ih, mem_bump_keys]
    tauto

theorem countOcc_count (details : List QueryInfo) (t : String) :
    bufCount (countOcc details) t = (details.map (fun qi => qi.sql)).count t := by
  rw [countOcc, foldl_bump_count]
  simp [bufCount]

theorem countOcc_keys_nodup (details : List QueryInfo) :
    ((countOcc details).map Prod.fst).Nodup :=
  foldl_bump_keys_nodup details [] (by simp)

theorem countOcc_mem_keys (details : List QueryInfo) (t : String) :
    t ∈ (countOcc details).map Prod.fst ↔ t ∈ details.map (fun qi => qi.sql) := by
  rw [countOcc, foldl_bump_keys_mem]
  simp

theorem bufCount_eq_zero_of_not_mem (buf : List (String × Nat)) (t : String)
    (h : t ∉ buf.map Prod.fst) : bufCount buf t = 0 := by
  induction buf with
  | nil => rfl
  | cons p rest ih =>
    simp only [List.map_cons, List.mem_cons] at h
    push_neg at h
    simp only [bufCount]
    rw [if_neg (fun hh => h.1 hh.symm), ih h.2]

theorem bufCount_eq_snd (buf : List (String × Nat))
    (hnd : (buf.map Prod.fst).Nodup) (p : String × Nat) (hp : p ∈ buf) :
    bufCount buf p.1 = p.2 := by
  induction buf with
  | nil => cases hp
  | cons q rest ih =>
    simp only [List.map_cons, List.nodup_cons] at hnd
    rcases List.mem_cons.mp hp with h1 | h2
    · subst h1
      simp only [bufCount, if_pos rfl]
      rw [bufCount_eq_zero_of_not_mem rest p.1 hnd.1]
      simp
    · have hne : ¬ q.1 = p.1 := by
        intro h
        exact hnd.1 (h ▸ List.mem_map_of_mem Prod.fst h2)
      simp only [bufCount]
      rw [if_neg hne, ih hnd.2 h2]
      simp

theorem mem_countOcc_snd (details : List QueryInfo) (p : String × Nat)
    (hp : p ∈ countOcc details) :
    p.2 = (details.map (fun qi => qi.sql)).count p.1 := by
  rw [← countOcc_count]
  exact (bufCount_eq_snd _ (countOcc_keys_nodup _) p hp).symm

theorem mem_countOcc_snd_pos (details : List QueryInfo) (p : String × Nat)
    (hp : p ∈ countOcc details) : 1 ≤ p.2 := by
  rw [mem_countOcc_snd details p hp]
  have hmem : p.1 ∈ details.map (fun qi => qi.sql) :=
    (countOcc_mem_keys details p.1).mp (List.mem_map_of_mem Prod.fst hp)
  exact List.count_pos_iff.mpr hmem

theorem length_le_sum_of_one_le :
    ∀ l : List Nat, (∀ x ∈ l, 1 ≤ x) → l.length ≤ l.sum := by
  intro l
  induction l with
  | nil => simp
  | cons a as ih =>
    intro h
    simp only [List.length_cons, List.sum_cons]
    have has := ih (fun x hx => h x (List.mem_cons_of_mem _ hx))
    have ha := h a (List.mem_cons_self _ _)
    omega

theorem sum_sub_length (l : List Nat) (h : ∀ x ∈ l, 1 ≤ x) :
    l.sum - l.length = (l.map (fun x => x - 1)).sum := by
  induction l with
  | nil => simp
  | cons a as ih =>
    simp only [List.sum_cons, List.length_cons, List.map_cons]
    have ha := h a (List.mem_cons_self _ _)
    have has : ∀ x ∈ as, 1 ≤ x := fun x hx => h x (List.mem_cons_of_mem _ hx)
    have hle := length_le_sum_of_one_le as has
    rw [← ih has]
    omega

theorem sum_map_eq_of_nodup_of_mem_iff (l₁ l₂ : List String) (f : String → Nat)
    (h₁ : l₁.Nodup) (h₂ : l₂.Nodup) (hmem : ∀ s, s ∈ l₁ ↔ s ∈ l₂) :
    (l₁.map f).sum = (l₂.map f).sum := by
  have hperm : List.Perm l₁ l₂ := (List.perm_ext_iff_of_nodup h₁ h₂).mpr hmem
  exact (hperm.map f).sum_eq

/-! ### Claim C2 -/

/-- Spec-side excess-duplicate count: the sum, over the groups of equal
canonical SQL whose member count is greater than 1, of (count - 1). -/
def specDupCount (details : List QueryInfo) : Nat :=
  ((((details.map (fun qi => qi.sql)).dedup).filter
      (fun s => decide (1 < (details.map (fun qi => qi.sql)).count s))).map
    (fun s => (details.map (fun qi => qi.sql)).count s - 1)).sum

theorem keys_filter_mem_iff (details : List QueryInfo) (s : String) :
    (s ∈ ((countOcc details).filter (fun p => decide (1 < p.2))).map Prod.fst) ↔
      s ∈ ((details.map (fun qi => qi.sql)).dedup).filter
        (fun t => decide (1 < (details.map (fun qi => qi.sql)).count t)) := by
  constructor
  · intro hs
    obtain ⟨p, hp, hps⟩ := List.mem_map.mp hs
    have hpc : p ∈ countOcc details := List.mem_of_mem_filter hp
    have hlt : 1 < p.2 := by
      have := List.of_mem_filter hp
      exact of_decide_eq_true this
    have hcount := mem_countOcc_snd details p hpc
    have hmem : p.1 ∈ details.map (fun qi => qi.sql) :=
      (countOcc_mem_keys details p.1).mp (List.mem_map_of_mem Prod.fst hpc)
    rw [List.mem_filter]
    subst hps
    refine ⟨List.mem_dedup.mpr hmem, ?_⟩
    rw [decide_eq_true_eq, ← hcount]
    exact hlt
  · intro hs
    rw [List.mem_filter] at hs
    obtain ⟨hsd, hslt⟩ := hs
    have hsmem : s ∈ details.map (fun qi => qi.sql) := List.mem_dedup.mp hsd
    have hkey : s ∈ (countOcc details).map Prod.fst :=
      (countOcc_mem_keys details s).mpr hsmem
    obtain ⟨p, hp, hps⟩ := List.mem_map.mp hkey
    refine List.mem_map.mpr ⟨p, ?_, hps⟩
    rw [List.mem_filter]
    refine ⟨hp, ?_⟩
    rw [decide_eq_true_eq, mem_countOcc_snd details p hp, hps]
    exact of_decide_eq_true hslt

/-- C2: the duplicate detector's returned count equals the sum, over groups
of equal canonical SQL with more than one member, of (count - 1); a sequence
with no repeated canonical SQL yields 0. -/
theorem claim_C2_duplicate_count (details : List QueryInfo) :
    check_duplicates details = specDupCount details
    ∧ ((details.map (fun qi => qi.sql)).Nodup → check_duplicates details = 0) := by
  have hperm : List.Perm (count_duplicates details) (countOcc details) :=
    List.mergeSort_perm _ _
  have hpermD : List.Perm
      ((count_duplicates details).filter (fun p => decide (1 < p.2)))
      ((countOcc details).filter (fun p => decide (1 < p.2))) := hperm.filter _
  have hlen : ((count_duplicates details).filter (fun p => decide (1 < p.2))).length =
      ((countOcc details).filter (fun p => decide (1 < p.2))).length :=
    hpermD.length_eq
  have hsum : (((count_duplicates details).filter (fun p => decide (1 < p.2))).map
        Prod.snd).sum =
      (((countOcc details).filter (fun p => decide (1 < p.2))).map Prod.snd).sum :=
    (hpermD.map Prod.snd).sum_eq
  have hzero : ((countOcc details).filter (fun p => decide (1 < p.2))) = [] →
      check_duplicates details = 0 := by
    intro h0
    simp only [check_duplicates]
    have hl0 : ((count_duplicates details).filter (fun p => decide (1 < p.2))).length = 0 := by
      rw [hlen, h0]
      rfl
    rw [if_neg (show ¬ (0 < ((count_duplicates details).filter
      (fun p => decide (1 < p.2))).length) by omega)]
  constructor
  · by_cases hD0 : ((countOcc details).filter (fun p => decide (1 < p.2))) = []
    · rw [hzero hD0]
      have hK : ((details.map (fun qi => qi.sql)).dedup).filter
          (fun t => decide (1 < (details.map (fun qi => qi.sql)).count t)) = [] := by
        rw [List.eq_nil_iff_forall_not_mem]
        intro s hs
        have := (keys_filter_mem_iff details s).mpr hs
        rw [hD0] at this
        simp at this
      rw [specDupCount, hK]
      rfl
    · have hlen0 : 0 < ((count_duplicates details).filter
          (fun p => decide (1 < p.2))).length := by
        rw [hlen]
        exact List.length_pos.mpr hD0
      simp only [check_duplicates]
      rw [if_pos hlen0, hsum, hlen]
      have hone : ∀ x ∈ ((countOcc details).filter
          (fun p => decide (1 < p.2))).map Prod.snd, 1 ≤ x := by
        intro x hx
        obtain ⟨p, hp, hpx⟩ := List.mem_map.mp hx
        have h1 := List.of_mem_filter hp
        have h2 : 1 < p.2 := of_decide_eq_true h1
        omega
      have hstep := sum_sub_length
        (((countOcc details).filter (fun p => decide (1 < p.2))).map Prod.snd) hone
      rw [List.length_map] at hstep
      rw [hstep, List.map_map]
      have hpt : ((countOcc details).filter (fun p => decide (1 < p.2))).map
            ((fun x => x - 1) ∘ Prod.snd) =
          ((countOcc details).filter (fun p => decide (1 < p.2))).map
            ((fun s => (details.map (fun qi => qi.sql)).count s - 1) ∘ Prod.fst) := by
        apply List.map_congr_left
        intro p hp
        have := mem_countOcc_snd details p (List.mem_of_mem_filter hp)
        simp only [Function.comp_apply]
        rw [this]
      rw [hpt, ← List.map_map]
      have hnodupK : (((countOcc details).filter
          (fun p => decide (1 < p.2))).map Prod.fst).Nodup :=
        (countOcc_keys_nodup details).sublist ((List.filter_sublist _).map Prod.fst)
      have hnodupS : (((details.map (fun qi => qi.sql)).dedup).filter
          (fun t => decide (1 < (details.map (fun qi => qi.sql)).count t))).Nodup :=
        (List.nodup_dedup _).filter _
      rw [specDupCount]
      exact sum_map_eq_of_nodup_of_mem_iff _ _ _ hnodupK hnodupS
        (keys_filter_mem_iff details)
  · intro hnd
    apply hzero
    rw [List.eq_nil_iff_forall_not_mem]
    intro p hp
    have h1 := List.of_mem_filter hp
    have hlt : 1 < p.2 := of_decide_eq_true h1
    have hle := List.nodup_iff_count_le_one.mp hnd p.1
    have := mem_countOcc_snd details p (List.mem_of_mem_filter hp)
    omega

/-! ### Claim C7 -/

theorem cd_le_trans (a b c : String × Nat)
    (hab : decide (b.2 ≤ a.2) = true) (hbc : decide (c.2 ≤ b.2) = true) :
    decide (c.2 ≤ a.2) = true := by
  simp only [decide_eq_true_eq] at hab hbc ⊢
  omega

theorem cd_le_total (a b : String × Nat) :
    (decide (b.2 ≤ a.2) || decide (a.2 ≤ b.2)) = true := by
  simp only [Bool.or_eq_true, decide_eq_true_eq]
  omega

/-- C7: duplicate groups are reported in descending order of member count
(also after the `> 1` filter that selects the reported groups), equal counts
keep first-encounter order (the sort is stable with respect to the
insertion-ordered counts), and for each reported group the traceback output
covers at most the first N group members in original input order, where N is
the configured per-group limit (default 1). -/
theorem claim_C7_report_order (cfg : Config) (details : List QueryInfo)
    (duplicates : List (String × Nat)) (c : Nat) :
    (count_duplicates details).Pairwise (fun a b => b.2 ≤ a.2)
    ∧ ((count_duplicates details).filter (fun p => decide (1 < p.2))).Pairwise
        (fun a b => b.2 ≤ a.2)
    ∧ (count_duplicates details).filter (fun p => decide (p.2 = c)) =
        (countOcc details).filter (fun p => decide (p.2 = c))
    ∧ (∀ e ∈ log_duplicates { cfg with log_duplicates := true } details duplicates,
        e.tbs.length ≤ cfg.log_tracebacks_duplicate_limit ∧
        e.tbs.Sublist ((group_queries details e.sql).take
          cfg.log_tracebacks_duplicate_limit) ∧
        (group_queries details e.sql).Sublist details)
    ∧ defaultCfg.log_tracebacks_duplicate_limit = 1 := by
  have hsorted : (count_duplicates details).Pairwise (fun a b => b.2 ≤ a.2) := by
    have h := List.sorted_mergeSort
      (fun a b c hab hbc => cd_le_trans a b c hab hbc)
      (fun a b => cd_le_total a b) (countOcc details)
    exact h.imp (fun hab => of_decide_eq_true hab)
  refine ⟨hsorted, List.Pairwise.sublist (List.filter_sublist _) hsorted, ?_, ?_, rfl⟩
  · have hA : ((countOcc details).filter (fun p => decide (p.2 = c))).Pairwise
        (fun (a b : String × Nat) => decide (b.2 ≤ a.2) = true) := by
      apply List.pairwise_of_forall_mem_list
      intro a ha b hb
      have ha1 := List.of_mem_filter ha
      have hb1 := List.of_mem_filter hb
      have ha2 : a.2 = c := of_decide_eq_true ha1
      have hb2 : b.2 = c := of_decide_eq_true hb1
      simp [ha2, hb2]
    have hsub : ((countOcc details).filter (fun p => decide (p.2 = c))).Sublist
        (count_duplicates details) :=
      List.sublist_mergeSort (fun a b c hab hbc => cd_le_trans a b c hab hbc)
        (fun a b => cd_le_total a b) hA (List.filter_sublist _)
    have hsub2 : ((countOcc details).filter (fun p => decide (p.2 = c))).Sublist
        ((count_duplicates details).filter (fun p => decide (p.2 = c))) := by
      have h1 := hsub.filter (fun p => decide (p.2 = c))
      rw [List.filter_filter] at h1
      have h2 : ((countOcc details).filter
          (fun p => decide (p.2 = c) && decide (p.2 = c))) =
          ((countOcc details).filter (fun p => decide (p.2 = c))) := by
        apply List.filter_congr
        intro p _
        rw [Bool.and_self]
      rwa [h2] at h1
    have hperm2 : List.Perm
        ((count_duplicates details).filter (fun p => decide (p.2 = c)))
        ((countOcc details).filter (fun p => decide (p.2 = c))) :=
      (List.mergeSort_perm _ _).filter _
    exact (hsub2.eq_of_length hperm2.length_eq.symm).symm
  · intro e he
    simp only [log_duplicates, Bool.not_true, Bool.false_eq_true, if_false,
      ite_false] at he
    obtain ⟨p, hp, hpe⟩ := List.mem_map.mp he
    subst hpe
    refine ⟨?_, ?_, List.filter_sublist _⟩
    · dsimp only
      by_cases hcond :
          (cfg.log_tracebacks && !(group_queries details p.1).isEmpty) = true
      · rw [if_pos hcond]
        calc (((group_queries details p.1).take
                cfg.log_tracebacks_duplicate_limit).filter
              (fun x => tbTruthy x.tb)).length
            ≤ ((group_queries details p.1).take
                cfg.log_tracebacks_duplicate_limit).length :=
              List.length_filter_le _ _
          _ ≤ cfg.log_tracebacks_duplicate_limit := List.length_take_le _ _
      · rw [if_neg hcond]
        simp
    · dsimp only
      by_cases hcond :
          (cfg.log_tracebacks && !(group_queries details p.1).isEmpty) = true
      · rw [if_pos hcond]
        exact List.filter_sublist _
      · rw [if_neg hcond]
        exact List.nil_sublist _

end QInspect
